import Mathlib

/-!
Shallow embedding of the D&D assistant core (Project/dnd_agent.py).

The embedded state is the `_referenced_rules` list of the `DnDAssistant`
class.  External collaborators (the vector store similarity search and the
LLM agent stream) are modelled as explicit function parameters returning
`Except String _`, where the `error` case models a raised Python exception
carrying its message.  Python string builtins used by the source
(`str.split()`, `str.strip(chars)`, `str.lower()`, substring `in`) are
embedded as executable functions over `List Char`.
-/

namespace DnD

/-- A langchain `Document` as used by the agent: its `page_content` text and
the optional `page` entry of its metadata. -/
structure Doc where
  page_content : String
  page : Option Nat
  deriving DecidableEq, Repr

/-- A message object inside an agent event; `content` is `none` when the
object has no `content` attribute. -/
structure AgentMessage where
  content : Option String
  deriving DecidableEq, Repr

/-- One event of `agent.stream(...)`; `messages` is `none` when the event
dict has no `"messages"` key. -/
structure AgentEvent where
  messages : Option (List AgentMessage)
  deriving DecidableEq, Repr

/-- Boolean test that `pat` occurs at the start of `s`. -/
def listIsPref : List Char → List Char → Bool
  | [], _ => true
  | _ :: _, [] => false
  | a :: as, b :: bs => a == b && listIsPref as bs

/-- Boolean test that `pat` occurs contiguously somewhere in `s`. -/
def listContainsSub : List Char → List Char → Bool
  | pat, [] => listIsPref pat []
  | pat, b :: bs => listIsPref pat (b :: bs) || listContainsSub pat bs

/-- Python `sub in s` substring membership. -/
def pyContains (s sub : String) : Bool :=
  listContainsSub sub.toList s.toList

/-- Python `s.lower()` (over the ASCII range used by the agent). -/
def pyLower (s : String) : String :=
  String.mk (s.toList.map Char.toLower)

/-- Helper for `pySplit`: walk the characters, accumulating the current word
reversed in `acc`, emitting a word at each whitespace run. -/
def splitWsAux : List Char → List Char → List String
  | [], acc => if acc.isEmpty then [] else [String.mk acc.reverse]
  | c :: cs, acc =>
    if c.isWhitespace then
      if acc.isEmpty then splitWsAux cs []
      else String.mk acc.reverse :: splitWsAux cs []
    else splitWsAux cs (c :: acc)

/-- Python `s.split()`: split on whitespace runs, no empty words. -/
def pySplit (s : String) : List String :=
  splitWsAux s.toList []

/-- Python `s.strip(chars)`: remove leading and trailing characters that
occur in `chars`. -/
def pyStrip (chars s : String) : String :=
  String.mk (((s.toList.dropWhile (chars.toList.contains ·)).reverse.dropWhile
    (chars.toList.contains ·)).reverse)

/-- Python `s[-1]` for the non-empty strings produced by `pySplit` (the
default is never reached on those). -/
def pyLast (s : String) : Char :=
  s.toList.getLastD ' '

/-- Method `DnDAssistant._add_referenced_rule`: append `rule` to the list if
it is a non-empty string not already present. -/
def _add_referenced_rule (rules : List String) (rule : String) : List String :=
  if rule ≠ "" ∧ rule ∉ rules then rules ++ [rule] else rules

/-- The fixed keyword list of the `search_rules` tool. -/
def ruleKeywords : List String :=
  ["race", "class", "spell", "item", "monster", "rule"]

/-- The per-document side effect of `search_rules` on the first two
documents: if the lowercased content mentions a keyword, log `"Found: "`
followed by the first three words joined and stripped of `".,:;"`. -/
def docFoundUpdate (rs : List String) (d : Doc) : List String :=
  if ruleKeywords.any (fun kw => pyContains (pyLower d.page_content) kw) then
    if !((pySplit d.page_content).take 3).isEmpty then
      _add_referenced_rule rs
        ("Found: " ++ pyStrip ".,:;" (String.intercalate " " ((pySplit d.page_content).take 3)))
    else rs
  else rs

/-- Rendering of one retrieved document inside the return value of
`search_rules`. -/
def renderDoc (d : Doc) : String :=
  "Source: Page " ++ (match d.page with | some p => toString p | none => "N/A") ++ "\n"
    ++ d.page_content

/-- The `search_rules` tool closure.  `search q k` models
`rules_vector_store.similarity_search(q, k=k)`; its `error` case models a
raised exception, which the `try` block spanning the whole tool body turns
into an `"Error searching rules: "` string.  Returns the tool output paired
with the updated `_referenced_rules` list. -/
def search_rules (search : String → Nat → Except String (List Doc))
    (rules : List String) (query : String) : String × List String :=
  match search query 4 with
  | Except.error e => ("Error searching rules: " ++ e, rules)
  | Except.ok docs =>
    if docs.isEmpty then ("No matching rules found in the rulebooks.", rules)
    else
      (String.intercalate "\n\n" (docs.map renderDoc),
        (docs.take 2).foldl docFoundUpdate (_add_referenced_rule rules ("Search: " ++ query)))

/-- Extraction of the response text from the event list of `agent.stream`:
the content of the last message of the last event, with the fallback
sentence at every missing step. -/
def extractResponseText (events : List AgentEvent) : String :=
  match events.getLast? with
  | none => "Sorry, I couldn't generate a response."
  | some lastEvent =>
    match lastEvent.messages with
    | none => "Sorry, I couldn't generate a response."
    | some msgs =>
      match msgs.getLast? with
      | none => "Sorry, I couldn't generate a response."
      | some lastMessage =>
        match lastMessage.content with
        | none => "Sorry, I couldn't generate a response."
        | some c => c

/-- Method `DnDAssistant._extract_rules_from_response`: scan the
whitespace-split words of the response; a capitalized alphabetic word of
more than two characters whose predecessor does not end in one of `".!?"`
is logged as `"Possible: "` followed by the word. -/
def _extract_rules_from_response (rules : List String) (response : String)
    (query : String) : List String :=
  (pySplit response).enum.foldl (fun rs iw =>
    if !iw.2.isEmpty && (iw.2.toList.headD ' ').isUpper && iw.2.toList.length > 2
        && iw.2.toList.all Char.isAlpha then
      if decide (iw.1 > 0)
          && !(".!?".toList.contains (pyLast ((pySplit response).getD (iw.1 - 1) ""))) then
        _add_referenced_rule rs ("Possible: " ++ iw.2)
      else rs
    else rs) rules

/-- Method `DnDAssistant.send_message`: log the `"Query: "` entry, run the
agent stream (`stream m` models `self.agent.stream(...)`, with `error`
modelling a raised exception), extract the response text, run the
post-response heuristic, and return the text; a raised exception is caught
and turned into an `"Error: "` string. -/
def send_message (stream : String → Except String (List AgentEvent))
    (rules : List String) (message : String) : String × List String :=
  match stream message with
  | Except.error e => ("Error: " ++ e, _add_referenced_rule rules ("Query: " ++ message))
  | Except.ok events =>
    (extractResponseText events,
      _extract_rules_from_response (_add_referenced_rule rules ("Query: " ++ message))
        (extractResponseText events) message)

/-- The synthetic placeholder document built by `_setup_assistant` when the
rulebook PDF is absent. -/
def goliathDoc : Doc :=
  ⟨"Goliath: A race of powerful humanoids known for their strength and size.", some 123⟩

/-- The document list `_setup_assistant` indexes: the loaded chunks when the
PDF path exists, the single placeholder document otherwise. -/
def setupRulesDocs (pdfExists : Bool) (loaded : List Doc) : List Doc :=
  if pdfExists then loaded else [goliathDoc]

/-- The in-memory vector store, carrying the documents it indexes. -/
structure VectorStore where
  docs : List Doc
  deriving DecidableEq, Repr

/-- Method `DnDAssistant._prepare_vector_store`:
`InMemoryVectorStore.from_documents` indexes exactly the given chunks. -/
def _prepare_vector_store (rules_chunks : List Doc) : VectorStore :=
  ⟨rules_chunks⟩

/-- Modelled from the spec: similarity search over the index built from the
single placeholder chunk.  Per the Embedding Index contract, search returns
the stored chunks ranked by descending similarity truncated to `k`, and
returns fewer than `k` results only if the index holds fewer entries; the
ranking of a one-element index is that element for every query. -/
def goliathSearch : String → Nat → Except String (List Doc) :=
  fun _ k => Except.ok ((_prepare_vector_store (setupRulesDocs false [])).docs.take k)

/-- A similarity search whose underlying index is empty: every query yields
zero results. -/
def emptySearch : String → Nat → Except String (List Doc) :=
  fun _ _ => Except.ok []

/-- A similarity search that raises (models a failing embedding or index
backend). -/
def failingSearch : String → Nat → Except String (List Doc) :=
  fun _ _ => Except.error "index unavailable"

/-- An agent stream that raises (models a network or rate-limit failure of
the model call). -/
def errorStream : String → Except String (List AgentEvent) :=
  fun _ => Except.error "rate limit"

/-- An agent stream that answers every message with a fixed final text. -/
def fireballStream : String → Except String (List AgentEvent) :=
  fun _ => Except.ok [⟨some [⟨some "The Fireball spell deals damage."⟩]⟩]

/-- The referenced-rules side effect of a successful `search_rules` call as
the spec states it: append the `"Search: "` entry if absent, then, for the
chunks among the first two whose lowercased text contains a keyword of
`ruleKeywords`, append `"Found: "` followed by the first three words of the
chunk trimmed of the surrounding punctuation `".,:;"`. -/
def specSearchSideEffect (rules : List String) (query : String) (docs : List Doc) :
    List String :=
  (((docs.take 2).filter (fun d =>
      ruleKeywords.any (fun kw => pyContains (pyLower d.page_content) kw))).map (fun d =>
      "Found: " ++ pyStrip ".,:;" (String.intercalate " " ((pySplit d.page_content).take 3)))).foldl
    _add_referenced_rule (_add_referenced_rule rules ("Search: " ++ query))

/-- The `"Possible: "` entries the spec states for the post-response
heuristic: one for each whitespace-delimited alphabetic word of length
greater than two whose first character is uppercase and whose preceding
word does not end in one of `".!?"`, the first word being excluded. -/
def specPossibleEntries (response : String) : List String :=
  ((pySplit response).enum.filter (fun iw =>
      iw.2.toList.all Char.isAlpha && iw.2.toList.length > 2
        && (iw.2.toList.headD ' ').isUpper && decide (iw.1 > 0)
        && !(".!?".toList.contains (pyLast ((pySplit response).getD (iw.1 - 1) ""))))).map
    (fun iw => "Possible: " ++ iw.2)

/-- One state-mutating operation on the referenced-rules log: a facade
`send_message` turn, a `search_rules` tool call, or a standalone run of the
post-response heuristic. -/
inductive AssistantOp where
  | message (stream : String → Except String (List AgentEvent)) (text : String)
  | searchTool (search : String → Nat → Except String (List Doc)) (query : String)
  | heuristic (response : String) (query : String)

/-- Effect of one operation on the referenced-rules log. -/
def applyOp (rules : List String) : AssistantOp → List String
  | AssistantOp.message stream text => (send_message stream rules text).2
  | AssistantOp.searchTool search query => (search_rules search rules query).2
  | AssistantOp.heuristic response query => _extract_rules_from_response rules response query

/-- The referenced-rules log after a sequence of operations, starting from
the empty log of a fresh `DnDAssistant`. -/
def runOps (ops : List AssistantOp) : List String :=
  ops.foldl applyOp []

/-- A heap of Python list objects; a reference is an index into the heap.
This models the aliasing semantics of the `_referenced_rules` list object
and of the copy returned by `get_referenced_rules`. -/
structure ListHeap where
  cells : List (List String)
  deriving DecidableEq, Repr

/-- Contents of the list object behind reference `r`. -/
def readRef (h : ListHeap) (r : Nat) : List String :=
  h.cells.getD r []

/-- Replace the contents of the list object behind reference `r`. -/
def writeRef (h : ListHeap) (r : Nat) (v : List String) : ListHeap :=
  ⟨h.cells.set r v⟩

/-- Python `list.append` on the list object behind `r`. -/
def appendRef (h : ListHeap) (r : Nat) (x : String) : ListHeap :=
  writeRef h r (readRef h r ++ [x])

/-- Method `_add_referenced_rule` acting on the list object behind `r`. -/
def addReferencedRuleRef (h : ListHeap) (r : Nat) (x : String) : ListHeap :=
  if x ≠ "" ∧ x ∉ readRef h r then appendRef h r x else h

/-- Method `DnDAssistant.get_referenced_rules`:
`self._referenced_rules.copy()` allocates a fresh list object with the same
contents and returns a reference to it, leaving the heap entry of `r`
untouched. -/
def get_referenced_rules (h : ListHeap) (r : Nat) : Nat × ListHeap :=
  (h.cells.length, ⟨h.cells ++ [readRef h r]⟩)

/-- A call to `_add_referenced_rule` only ever appends at the end. -/
theorem add_referenced_rule_eq_append (rules : List String) (r : String) :
    ∃ t, _add_referenced_rule rules r = rules ++ t := by
  unfold _add_referenced_rule
  split
  · exact ⟨[r], rfl⟩
  · exact ⟨[], by simp⟩

/-- A call to `_add_referenced_rule` preserves freedom from duplicates. -/
theorem add_referenced_rule_nodup {rules : List String} (h : rules.Nodup) (r : String) :
    (_add_referenced_rule rules r).Nodup := by
  unfold _add_referenced_rule
  split
  · next hc => simp [List.nodup_append, h, hc.2]
  · exact h

/-- A non-empty rule is present after `_add_referenced_rule` adds it. -/
theorem mem_add_referenced_rule {r : String} (hr : r ≠ "") (rules : List String) :
    r ∈ _add_referenced_rule rules r := by
  unfold _add_referenced_rule
  split
  · simp
  · next hc =>
    push_neg at hc
    exact hc hr

/-- A fold whose step only appends, only appends. -/
theorem foldl_step_eq_append {α : Type} {f : List String → α → List String}
    (hf : ∀ rs a, ∃ t, f rs a = rs ++ t) :
    ∀ (l : List α) (rs : List String), ∃ t, l.foldl f rs = rs ++ t := by
  intro l
  induction l with
  | nil => exact fun rs => ⟨[], by simp⟩
  | cons a l ih =>
    intro rs
    obtain ⟨t1, h1⟩ := hf rs a
    obtain ⟨t2, h2⟩ := ih (rs ++ t1)
    exact ⟨t1 ++ t2, by rw [List.foldl_cons, h1, h2, List.append_assoc]⟩

/-- A fold whose step preserves freedom from duplicates preserves it. -/
theorem foldl_step_nodup {α : Type} {f : List String → α → List String}
    (hf : ∀ rs a, rs.Nodup → (f rs a).Nodup) :
    ∀ (l : List α) (rs : List String), rs.Nodup → (l.foldl f rs).Nodup := by
  intro l
  induction l with
  | nil => exact fun _ h => h
  | cons a l ih => exact fun rs h => ih (f rs a) (hf rs a h)

/-- The post-response heuristic only appends to the log. -/
theorem extract_rules_eq_append (rules : List String) (response query : String) :
    ∃ t, _extract_rules_from_response rules response query = rules ++ t := by
  unfold _extract_rules_from_response
  apply foldl_step_eq_append
  intro rs iw
  dsimp only
  split
  · split
    · exact add_referenced_rule_eq_append rs _
    · exact ⟨[], by simp⟩
  · exact ⟨[], by simp⟩

/-- The post-response heuristic preserves freedom from duplicates. -/
theorem extract_rules_nodup {rules : List String} (h : rules.Nodup)
    (response query : String) :
    (_extract_rules_from_response rules response query).Nodup := by
  unfold _extract_rules_from_response
  apply foldl_step_nodup _ _ _ h
  intro rs iw hrs
  dsimp only
  split
  · split
    · exact add_referenced_rule_nodup hrs _
    · exact hrs
  · exact hrs

/-- The per-document side effect of the search tool only appends. -/
theorem docFoundUpdate_eq_append (rs : List String) (d : Doc) :
    ∃ t, docFoundUpdate rs d = rs ++ t := by
  unfold docFoundUpdate
  split
  · split
    · exact add_referenced_rule_eq_append rs _
    · exact ⟨[], by simp⟩
  · exact ⟨[], by simp⟩

/-- The per-document side effect preserves freedom from duplicates. -/
theorem docFoundUpdate_nodup {rs : List String} (h : rs.Nodup) (d : Doc) :
    (docFoundUpdate rs d).Nodup := by
  unfold docFoundUpdate
  split
  · split
    · exact add_referenced_rule_nodup h _
    · exact h
  · exact h

/-- The search tool only appends to the log. -/
theorem search_rules_snd_eq_append (search : String → Nat → Except String (List Doc))
    (rules : List String) (query : String) :
    ∃ t, (search_rules search rules query).2 = rules ++ t := by
  unfold search_rules
  cases hs : search query 4 with
  | error e => exact ⟨[], by simp⟩
  | ok docs =>
    dsimp only
    split
    · exact ⟨[], by simp⟩
    · obtain ⟨t1, h1⟩ := add_referenced_rule_eq_append rules ("Search: " ++ query)
      obtain ⟨t2, h2⟩ :=
        foldl_step_eq_append (fun rs d => docFoundUpdate_eq_append rs d) (docs.take 2)
          (_add_referenced_rule rules ("Search: " ++ query))
      exact ⟨t1 ++ t2, by rw [h2, h1, List.append_assoc]⟩

/-- The search tool preserves freedom from duplicates. -/
theorem search_rules_snd_nodup (search : String → Nat → Except String (List Doc))
    {rules : List String} (h : rules.Nodup) (query : String) :
    (search_rules search rules query).2.Nodup := by
  unfold search_rules
  cases hs : search query 4 with
  | error e => exact h
  | ok docs =>
    dsimp only
    split
    · exact h
    · exact foldl_step_nodup (fun rs d hrs => docFoundUpdate_nodup hrs d) (docs.take 2)
        _ (add_referenced_rule_nodup h _)

/-- The facade `send_message` only appends to the log. -/
theorem send_message_snd_eq_append (stream : String → Except String (List AgentEvent))
    (rules : List String) (message : String) :
    ∃ t, (send_message stream rules message).2 = rules ++ t := by
  unfold send_message
  cases hs : stream message with
  | error e => exact add_referenced_rule_eq_append rules _
  | ok events =>
    dsimp only
    obtain ⟨t1, h1⟩ := add_referenced_rule_eq_append rules ("Query: " ++ message)
    obtain ⟨t2, h2⟩ := extract_rules_eq_append (_add_referenced_rule rules ("Query: " ++ message))
      (extractResponseText events) message
    exact ⟨t1 ++ t2, by rw [h2, h1, List.append_assoc]⟩

/-- The facade `send_message` preserves freedom from duplicates. -/
theorem send_message_snd_nodup (stream : String → Except String (List AgentEvent))
    {rules : List String} (h : rules.Nodup) (message : String) :
    (send_message stream rules message).2.Nodup := by
  unfold send_message
  cases hs : stream message with
  | error e => exact add_referenced_rule_nodup h _
  | ok events =>
    exact extract_rules_nodup (add_referenced_rule_nodup h _) (extractResponseText events) message

/-- Any single operation only appends to the log. -/
theorem applyOp_eq_append (rules : List String) (op : AssistantOp) :
    ∃ t, applyOp rules op = rules ++ t := by
  cases op with
  | message stream text => exact send_message_snd_eq_append stream rules text
  | searchTool search query => exact search_rules_snd_eq_append search rules query
  | heuristic response query => exact extract_rules_eq_append rules response query

/-- Any single operation preserves freedom from duplicates. -/
theorem applyOp_nodup {rules : List String} (h : rules.Nodup) (op : AssistantOp) :
    (applyOp rules op).Nodup := by
  cases op with
  | message stream text => exact send_message_snd_nodup stream h text
  | searchTool search query => exact search_rules_snd_nodup search h query
  | heuristic response query => exact extract_rules_nodup h response query

/-- Characters of a matching pattern occur in the scanned prefix. -/
theorem mem_of_listIsPref : ∀ {pat s : List Char}, listIsPref pat s = true →
    ∀ c ∈ pat, c ∈ s := by
  intro pat
  induction pat with
  | nil => intro s _ c hc; cases hc
  | cons a as ih =>
    intro s h c hc
    cases s with
    | nil => simp [listIsPref] at h
    | cons b bs =>
      simp only [listIsPref, Bool.and_eq_true, beq_iff_eq] at h
      rcases List.mem_cons.mp hc with rfl | hmem
      · rw [h.1]; exact List.mem_cons_self b bs
      · exact List.mem_cons_of_mem b (ih h.2 c hmem)

/-- Characters of a contained pattern occur in the scanned string. -/
theorem mem_of_listContainsSub : ∀ {pat s : List Char}, listContainsSub pat s = true →
    ∀ c ∈ pat, c ∈ s := by
  intro pat s
  induction s with
  | nil =>
    intro h c hc
    cases pat with
    | nil => cases hc
    | cons a as => simp [listContainsSub, listIsPref] at h
  | cons b bs ih =>
    intro h c hc
    simp only [listContainsSub, Bool.or_eq_true] at h
    rcases h with h | h
    · exact mem_of_listIsPref h c hc
    · exact List.mem_cons_of_mem b (ih h c hc)

/-- Lowercasing does not move a whitespace character. -/
theorem toLower_of_isWhitespace {c : Char} (h : c.isWhitespace = true) : c.toLower = c := by
  simp only [Char.isWhitespace, Bool.or_eq_true, decide_eq_true_eq] at h
  rcases h with ((h | h) | h) | h <;> (subst h; decide)

/-- A word emitted from a non-empty accumulator is a non-empty string. -/
theorem mk_reverse_ne_empty {acc : List Char} (h : acc ≠ []) :
    String.mk acc.reverse ≠ "" := by
  intro hEq
  have h2 : acc.reverse = ([] : List Char) := congrArg String.data hEq
  exact h (List.reverse_eq_nil_iff.mp h2)

/-- Splitting with a non-empty accumulator yields at least one word. -/
theorem splitWsAux_ne_nil_of_acc : ∀ (l acc : List Char), acc ≠ [] →
    splitWsAux l acc ≠ [] := by
  intro l
  induction l with
  | nil =>
    intro acc hacc
    cases acc with
    | nil => exact absurd rfl hacc
    | cons x xs => simp [splitWsAux]
  | cons c cs ih =>
    intro acc hacc
    simp only [splitWsAux]
    split
    · cases acc with
      | nil => exact absurd rfl hacc
      | cons x xs => simp
    · exact ih (c :: acc) (by simp)

/-- Splitting a character list holding a non-whitespace character yields at
least one word. -/
theorem splitWsAux_ne_nil : ∀ (l : List Char), (∃ c ∈ l, c.isWhitespace = false) →
    ∀ acc, splitWsAux l acc ≠ [] := by
  intro l
  induction l with
  | nil => rintro ⟨c, hc, _⟩; cases hc
  | cons b bs ih =>
    rintro ⟨c, hc, hcw⟩ acc
    simp only [splitWsAux]
    split
    · next hbw =>
      have hcbs : c ∈ bs := by
        rcases List.mem_cons.mp hc with rfl | hmem
        · simp [hcw] at hbw
        · exact hmem
      split
      · exact ih ⟨c, hcbs, hcw⟩ []
      · simp
    · exact splitWsAux_ne_nil_of_acc bs (b :: acc) (by simp)

/-- A string holding a non-whitespace character splits into at least one
word. -/
theorem pySplit_ne_nil {s : String} {c : Char} (hc : c ∈ s.toList)
    (hcw : c.isWhitespace = false) : pySplit s ≠ [] :=
  splitWsAux_ne_nil s.toList ⟨c, hc, hcw⟩ []

/-- A string whose lowercasing contains a pattern with a non-whitespace
character splits into at least one word. -/
theorem pySplit_ne_nil_of_pyContains {s kw : String} {c : Char}
    (hc : c ∈ kw.toList) (hcw : c.isWhitespace = false)
    (h : pyContains (pyLower s) kw = true) : pySplit s ≠ [] := by
  have hmem : c ∈ (pyLower s).toList := mem_of_listContainsSub h c hc
  have hmap : c ∈ s.toList.map Char.toLower := hmem
  obtain ⟨c0, hc0, hlow⟩ := List.mem_map.mp hmap
  have hc0w : c0.isWhitespace = false := by
    cases hcase : c0.isWhitespace
    · rfl
    · have hcc : c = c0 := by rw [← hlow, toLower_of_isWhitespace hcase]
      rw [hcc, hcase] at hcw
      cases hcw
  exact pySplit_ne_nil hc0 hc0w

/-- When the lowercased content of a chunk contains one of the fixed
keywords, the chunk has at least one word, so the inner guard of the search
tool always fires on a keyword match. -/
theorem take3_not_isEmpty_of_keyword {d : Doc}
    (h : ruleKeywords.any (fun kw => pyContains (pyLower d.page_content) kw) = true) :
    (!((pySplit d.page_content).take 3).isEmpty) = true := by
  obtain ⟨kw, hkw, hpc⟩ := List.any_eq_true.mp h
  have hne : pySplit d.page_content ≠ [] := by
    simp only [ruleKeywords, List.mem_cons, List.not_mem_nil, or_false] at hkw
    rcases hkw with rfl | rfl | rfl | rfl | rfl | rfl
    · exact pySplit_ne_nil_of_pyContains (c := 'r') (by decide) (by decide) hpc
    · exact pySplit_ne_nil_of_pyContains (c := 'c') (by decide) (by decide) hpc
    · exact pySplit_ne_nil_of_pyContains (c := 's') (by decide) (by decide) hpc
    · exact pySplit_ne_nil_of_pyContains (c := 'i') (by decide) (by decide) hpc
    · exact pySplit_ne_nil_of_pyContains (c := 'm') (by decide) (by decide) hpc
    · exact pySplit_ne_nil_of_pyContains (c := 'r') (by decide) (by decide) hpc
  cases hsp : pySplit d.page_content with
  | nil => exact absurd hsp hne
  | cons w ws => simp

/-- A guarded fold of `_add_referenced_rule` is the fold of the rule names
of the elements passing the guard. -/
theorem foldl_if_eq_filter_map {α : Type} (p : α → Bool) (g : α → String) :
    ∀ (l : List α) (rs : List String),
      l.foldl (fun rs a => if p a then _add_referenced_rule rs (g a) else rs) rs
        = ((l.filter p).map g).foldl _add_referenced_rule rs := by
  intro l
  induction l with
  | nil => intro rs; rfl
  | cons a l ih =>
    intro rs
    by_cases h : p a = true
    · simp [List.foldl_cons, h, List.filter_cons, ih]
    · have h' : p a = false := by
        cases hc : p a
        · rfl
        · exact absurd hc h
      simp [List.foldl_cons, h', List.filter_cons, ih]

/-- The per-document side effect written as a single guarded append: on a
keyword match the inner word guard always fires. -/
theorem docFoundUpdate_eq_filtered (rs : List String) (d : Doc) :
    docFoundUpdate rs d =
      if ruleKeywords.any (fun kw => pyContains (pyLower d.page_content) kw) then
        _add_referenced_rule rs
          ("Found: " ++ pyStrip ".,:;" (String.intercalate " " ((pySplit d.page_content).take 3)))
      else rs := by
  by_cases hk : ruleKeywords.any (fun kw => pyContains (pyLower d.page_content) kw) = true
  · rw [if_pos hk]
    unfold docFoundUpdate
    rw [if_pos hk, if_pos (take3_not_isEmpty_of_keyword hk)]
  · rw [if_neg hk]
    unfold docFoundUpdate
    rw [if_neg hk]

/-- Every word produced by the whitespace splitter is a non-empty string. -/
theorem ne_empty_of_mem_splitWsAux : ∀ (l acc : List Char) (w : String),
    w ∈ splitWsAux l acc → w ≠ "" := by
  intro l
  induction l with
  | nil =>
    intro acc w hw
    cases acc with
    | nil => simp [splitWsAux] at hw
    | cons x xs =>
      simp only [splitWsAux, List.isEmpty_cons, Bool.false_eq_true, if_false,
        List.mem_singleton] at hw
      subst hw
      exact mk_reverse_ne_empty (by simp)
  | cons c cs ih =>
    intro acc w hw
    simp only [splitWsAux] at hw
    split at hw
    · cases acc with
      | nil =>
        simp only [List.isEmpty_nil, if_true] at hw
        exact ih [] w hw
      | cons x xs =>
        simp only [List.isEmpty_cons, Bool.false_eq_true, if_false] at hw
        rcases List.mem_cons.mp hw with rfl | hmem
        · exact mk_reverse_ne_empty (by simp)
        · exact ih [] w hmem
    · exact ih (c :: acc) w hw

/-- Every word of a Python whitespace split is non-empty. -/
theorem pySplit_words_ne_empty {s w : String} (hw : w ∈ pySplit s) : w ≠ "" :=
  ne_empty_of_mem_splitWsAux s.toList [] w hw

/-- The word of an indexed word of a list is a word of the list. -/
theorem snd_mem_of_mem_enum {α : Type} {l : List α} {iw : Nat × α}
    (h : iw ∈ l.enum) : iw.2 ∈ l :=
  List.getElem?_mem (List.mem_enum_iff_getElem?.mp h)

/-- The heuristic condition of the source, with the vacuous emptiness test
dropped, is the spec ordering of the same tests. -/
theorem heuristic_cond_reorder (u l a d e : Bool) :
    ((((!false && u) && l) && a) && (d && e)) = ((((a && l) && u) && d) && e) := by
  revert u l a d e
  decide

/-- A nested guarded fold of `_add_referenced_rule` is the fold of the rule
names of the elements passing any pointwise-equivalent combined guard. -/
theorem foldl_if_if_eq_filter_map {α : Type} (p q r : α → Bool) (g : α → String) :
    ∀ (l : List α) (rs : List String), (∀ x ∈ l, (p x && q x) = r x) →
      l.foldl (fun rs a =>
          if p a then (if q a then _add_referenced_rule rs (g a) else rs) else rs) rs
        = ((l.filter r).map g).foldl _add_referenced_rule rs := by
  intro l
  induction l with
  | nil => intro rs _; rfl
  | cons a l ih =>
    intro rs h
    have ha := h a (List.mem_cons_self a l)
    have ih2 := fun rs => ih rs (fun x hx => h x (List.mem_cons_of_mem a hx))
    rw [List.foldl_cons, List.filter_cons, ← ha]
    by_cases hp : p a = true
    · by_cases hq : q a = true
      · simp [hp, hq, ih2]
      · have hq' : q a = false := by
          cases hc : q a
          · rfl
          · exact absurd hc hq
        simp [hp, hq', ih2]
    · have hp' : p a = false := by
        cases hc : p a
        · rfl
        · exact absurd hc hp
      simp [hp', ih2]

/-- A `"Query: "` entry is never the empty string. -/
theorem query_entry_ne_empty (m : String) : ("Query: " ++ m) ≠ "" := by
  intro hEq
  have h2 : "Query: ".data ++ m.data = ([] : List Char) := congrArg String.data hEq
  have h3 : "Query: ".data = ([] : List Char) := (List.append_eq_nil.mp h2).1
  exact absurd h3 (by decide)

/-- C1: for every input message, `send_message` never raises to its caller:
it is a total function whose outcome is either the `"Error: "` string built
from the exception the agent invocation raised, or the final response text
extracted from the agent event stream. -/
theorem send_message_never_raises (stream : String → Except String (List AgentEvent))
    (rules : List String) (message : String) :
    (∃ e, stream message = Except.error e ∧
        (send_message stream rules message).1 = "Error: " ++ e) ∨
    (∃ events, stream message = Except.ok events ∧
        (send_message stream rules message).1 = extractResponseText events) := by
  cases hs : stream message with
  | error e => exact Or.inl ⟨e, rfl, by simp [send_message, hs]⟩
  | ok events => exact Or.inr ⟨events, rfl, by simp [send_message, hs]⟩

/-- C2: for every query, the `search_rules` tool never raises to its caller:
it is a total function whose outcome is either the `"Error searching rules: "`
string built from the raised exception, the fixed no-results sentence, or
the rendering of the retrieved chunks, so the calling agent always receives
a textual result.  The `try` block of the source spans the whole tool body,
so the logging and formatting steps are covered by the same handler; in
this embedding they are total. -/
theorem search_rules_never_raises (search : String → Nat → Except String (List Doc))
    (rules : List String) (query : String) :
    (∃ e, search query 4 = Except.error e ∧
        (search_rules search rules query).1 = "Error searching rules: " ++ e) ∨
    (search query 4 = Except.ok [] ∧
        (search_rules search rules query).1 = "No matching rules found in the rulebooks.") ∨
    (∃ docs, search query 4 = Except.ok docs ∧ docs ≠ [] ∧
        (search_rules search rules query).1
          = String.intercalate "\n\n" (docs.map renderDoc)) := by
  cases hs : search query 4 with
  | error e => exact Or.inl ⟨e, rfl, by simp [search_rules, hs]⟩
  | ok docs =>
    cases docs with
    | nil => exact Or.inr (Or.inl ⟨rfl, by simp [search_rules, hs]⟩)
    | cons d ds =>
      exact Or.inr (Or.inr ⟨d :: ds, rfl, by simp, by simp [search_rules, hs]⟩)

/-- C3: starting from the empty log of a fresh assistant, any sequence of
operations (facade turns, search tool calls, heuristic runs) leaves
`referenced_rules` free of duplicate exact strings, and extending the
sequence only ever appends entries at the end: nothing is reordered or
removed, so entries stay in first-seen order. -/
theorem referenced_rules_invariant (ops more : List AssistantOp) :
    (runOps ops).Nodup ∧ ∃ t, runOps (ops ++ more) = runOps ops ++ t := by
  constructor
  · exact foldl_step_nodup (fun rs op h => applyOp_nodup h op) ops [] List.nodup_nil
  · unfold runOps
    rw [List.foldl_append]
    exact foldl_step_eq_append (fun rs op => applyOp_eq_append rs op) more (ops.foldl applyOp [])

/-- C5: when the index search returns zero results, `search_rules` returns
exactly the fixed no-results sentence. -/
theorem search_rules_empty_results (search : String → Nat → Except String (List Doc))
    (rules : List String) (query : String) (h : search query 4 = Except.ok []) :
    (search_rules search rules query).1 = "No matching rules found in the rulebooks." := by
  simp [search_rules, h]

/-- Witness for C5: the search over an empty index yields the no-results
sentence. -/
theorem search_rules_empty_results_witness :
    emptySearch "What is a Goliath?" 4 = Except.ok [] ∧
    (search_rules emptySearch [] "What is a Goliath?").1
      = "No matching rules found in the rulebooks." :=
  ⟨rfl, search_rules_empty_results emptySearch [] "What is a Goliath?" rfl⟩

/-- C10: `send_message` logs the `"Query: "` entry before invoking the
agent, so when the agent invocation raises and the call returns an
`"Error: "` string, the `"Query: "` entry is still present in the log: the
log is not rolled back on error. -/
theorem send_message_query_logged_on_error
    (stream : String → Except String (List AgentEvent)) (rules : List String)
    (message e : String) (h : stream message = Except.error e) :
    (send_message stream rules message).1 = "Error: " ++ e ∧
    (send_message stream rules message).2
      = _add_referenced_rule rules ("Query: " ++ message) ∧
    ("Query: " ++ message) ∈ (send_message stream rules message).2 := by
  refine ⟨by simp [send_message, h], by simp [send_message, h], ?_⟩
  have h2 : (send_message stream rules message).2
      = _add_referenced_rule rules ("Query: " ++ message) := by simp [send_message, h]
  rw [h2]
  exact mem_add_referenced_rule (query_entry_ne_empty message) rules

/-- C4: on a search that returns chunks, `search_rules` appends the
`"Search: "` entry for the query (when not already present) and, for the
chunks among the first two whose lowercased text contains one of the fixed
keywords, a `"Found: "` entry holding the first three words of the chunk
trimmed of surrounding punctuation, exactly as `specSearchSideEffect`
states it from the spec wording. -/
theorem search_rules_side_effect (search : String → Nat → Except String (List Doc))
    (rules : List String) (query : String) (docs : List Doc)
    (hok : search query 4 = Except.ok docs) (hne : docs ≠ []) :
    (search_rules search rules query).2 = specSearchSideEffect rules query docs := by
  have hfun : docFoundUpdate = fun (rs : List String) (d : Doc) =>
      if ruleKeywords.any (fun kw => pyContains (pyLower d.page_content) kw) then
        _add_referenced_rule rs
          ("Found: " ++ pyStrip ".,:;" (String.intercalate " " ((pySplit d.page_content).take 3)))
      else rs :=
    funext fun rs => funext fun d => docFoundUpdate_eq_filtered rs d
  have hempty : docs.isEmpty = false := by
    cases docs
    · exact absurd rfl hne
    · rfl
  simp only [search_rules, specSearchSideEffect, hok, hempty, Bool.false_eq_true, if_false]
  rw [hfun]
  exact foldl_if_eq_filter_map _ _ (docs.take 2) _

/-- Witness for C4: the round-trip over the placeholder index logs the
`"Search: "` entry and the `"Found: "` entry built from the first three
words of the placeholder chunk. -/
theorem search_rules_side_effect_witness :
    goliathSearch "What is a Goliath?" 4 = Except.ok [goliathDoc] ∧
    ([goliathDoc] : List Doc) ≠ [] ∧
    (search_rules goliathSearch [] "What is a Goliath?").2
      = specSearchSideEffect [] "What is a Goliath?" [goliathDoc] ∧
    specSearchSideEffect [] "What is a Goliath?" [goliathDoc]
      = ["Search: What is a Goliath?", "Found: Goliath: A race"] := by
  refine ⟨rfl, by decide, ?_, by decide⟩
  exact search_rules_side_effect goliathSearch [] "What is a Goliath?" [goliathDoc] rfl (by decide)

/-- C6: on a successful search, `search_rules` calls the index search with
k = 4 and returns the retrieved chunks each rendered as a source line with
the page (or `"N/A"`) followed by the chunk text, joined by blank lines in
retrieval order; over the index built from the single placeholder chunk the
result contains the page citation `"Source: Page 123"` and the word
`"Goliath"`. -/
theorem search_rules_rendering :
    (∀ (search : String → Nat → Except String (List Doc)) (rules : List String)
        (query : String) (docs : List Doc), search query 4 = Except.ok docs → docs ≠ [] →
        (search_rules search rules query).1
          = String.intercalate "\n\n" (docs.map renderDoc)) ∧
    pyContains (search_rules goliathSearch [] "What is a Goliath?").1 "Source: Page 123" = true ∧
    pyContains (search_rules goliathSearch [] "What is a Goliath?").1 "Goliath" = true := by
  refine ⟨?_, by decide, by decide⟩
  intro search rules query docs hok hne
  have hempty : docs.isEmpty = false := by
    cases docs
    · exact absurd rfl hne
    · rfl
  simp [search_rules, hok, hempty]

/-- Witness for C6: the rendering equation evaluated over the placeholder
index. -/
theorem search_rules_rendering_witness :
    goliathSearch "What is a Goliath?" 4 = Except.ok [goliathDoc] ∧
    (search_rules goliathSearch [] "What is a Goliath?").1
      = String.intercalate "\n\n" ([goliathDoc].map renderDoc) :=
  ⟨rfl, search_rules_rendering.1 goliathSearch [] "What is a Goliath?" [goliathDoc] rfl
    (by decide)⟩

/-- C7: the post-response heuristic appends exactly the deduplicated
`"Possible: "` entries of `specPossibleEntries`: one per whitespace-split
alphabetic word of more than two characters starting with an uppercase
letter whose preceding word does not end in one of `".!?"`, the first word
excluded; on `"The Fireball spell deals damage."` it logs
`"Possible: Fireball"` and not `"Possible: The"`. -/
theorem extract_rules_heuristic :
    (∀ (rules : List String) (response query : String),
        _extract_rules_from_response rules response query
          = (specPossibleEntries response).foldl _add_referenced_rule rules) ∧
    "Possible: Fireball" ∈ _extract_rules_from_response [] "The Fireball spell deals damage." "" ∧
    "Possible: The" ∉ _extract_rules_from_response [] "The Fireball spell deals damage." "" := by
  refine ⟨?_, by decide, by decide⟩
  intro rules response query
  unfold _extract_rules_from_response specPossibleEntries
  apply foldl_if_if_eq_filter_map
  intro x hx
  have hne : x.2 ≠ "" := pySplit_words_ne_empty (snd_mem_of_mem_enum hx)
  have hEmp : x.2.isEmpty = false := by
    cases hc : x.2.isEmpty
    · rfl
    · exact absurd ((String.isEmpty_iff x.2).mp hc) hne
  rw [hEmp]
  exact heuristic_cond_reorder _ _ _ _ _

/-- C8 counterexample: when the rulebook PDF is absent the pipeline indexes
one synthetic placeholder chunk, but its page number is present (123), not
absent as claimed. -/
theorem setup_placeholder_page_not_absent :
    (setupRulesDocs false []).length = 1 ∧
    ¬(∀ d ∈ setupRulesDocs false [], d.page = none) := by
  constructor
  · rfl
  · intro h
    exact absurd (h goliathDoc (by simp [setupRulesDocs])) (by decide)

/-- C8 amended: for an absent rulebook file, the pipeline indexes exactly
the single synthetic placeholder chunk, whose content is the placeholder
text and whose page number is 123, so the index built from it is never
empty. -/
theorem setup_placeholder_nonempty (loaded : List Doc) :
    setupRulesDocs false loaded = [goliathDoc] ∧
    goliathDoc.page = some 123 ∧
    goliathDoc.page_content ≠ "" ∧
    (_prepare_vector_store (setupRulesDocs false loaded)).docs.length = 1 := by
  exact ⟨rfl, rfl, by decide, rfl⟩

/-- C9: `get_referenced_rules` returns a copy of the current log: the call
does not change the log object, the returned object holds the same
contents, is a different object, and neither a later append to the log nor
a mutation of the returned object changes the other. -/
theorem get_referenced_rules_snapshot (h : ListHeap) (r : Nat)
    (hr : r < h.cells.length) :
    readRef (get_referenced_rules h r).2 r = readRef h r ∧
    readRef (get_referenced_rules h r).2 (get_referenced_rules h r).1 = readRef h r ∧
    (get_referenced_rules h r).1 ≠ r ∧
    (∀ x, readRef (addReferencedRuleRef (get_referenced_rules h r).2 r x)
        (get_referenced_rules h r).1 = readRef h r) ∧
    (∀ v, readRef (writeRef (get_referenced_rules h r).2 (get_referenced_rules h r).1 v) r
        = readRef h r) := by
  have hlen : r ≠ h.cells.length := Nat.ne_of_lt hr
  have hread : ∀ v, readRef ⟨h.cells ++ [v]⟩ r = readRef h r := by
    intro v
    simp [readRef, List.getD_eq_getElem?_getD, List.getElem?_append, hr]
  have hsnap : ∀ v, readRef ⟨h.cells ++ [v]⟩ h.cells.length = v := by
    intro v
    simp [readRef, List.getD_eq_getElem?_getD, List.getElem?_append_right (Nat.le_refl _)]
  refine ⟨hread _, hsnap _, Ne.symm hlen, ?_, ?_⟩
  · intro x
    unfold addReferencedRuleRef
    split
    · simp [appendRef, writeRef, readRef, get_referenced_rules,
        List.getD_eq_getElem?_getD, List.getElem?_set_ne hlen,
        List.getElem?_append_right (Nat.le_refl _)]
    · exact hsnap _
  · intro v
    simp [writeRef, readRef, get_referenced_rules, List.getD_eq_getElem?_getD,
      List.getElem?_set_ne (Ne.symm hlen), List.getElem?_append, hr]

/-- Witness for C9: a snapshot over a one-entry heap keeps its contents
after a later append to the log. -/
theorem get_referenced_rules_snapshot_witness :
    0 < (ListHeap.mk [["Query: hi"]]).cells.length ∧
    readRef (get_referenced_rules ⟨[["Query: hi"]]⟩ 0).2
      (get_referenced_rules ⟨[["Query: hi"]]⟩ 0).1 = ["Query: hi"] ∧
    readRef (addReferencedRuleRef (get_referenced_rules ⟨[["Query: hi"]]⟩ 0).2 0 "Possible: X")
      (get_referenced_rules ⟨[["Query: hi"]]⟩ 0).1 = ["Query: hi"] := by
  have h := get_referenced_rules_snapshot ⟨[["Query: hi"]]⟩ 0 (by decide)
  exact ⟨by decide, h.2.1, h.2.2.2.1 "Possible: X"⟩

/-- Witness for C10: a failing model call leaves the `"Query: "` entry in
the log and surfaces the `"Error: "` string. -/
theorem send_message_query_logged_on_error_witness :
    errorStream "What is a Goliath?" = Except.error "rate limit" ∧
    (send_message errorStream [] "What is a Goliath?").1 = "Error: " ++ "rate limit" ∧
    ("Query: " ++ "What is a Goliath?") ∈ (send_message errorStream [] "What is a Goliath?").2 := by
  have h := send_message_query_logged_on_error errorStream [] "What is a Goliath?" "rate limit" rfl
  exact ⟨rfl, h.1, h.2.2⟩

end DnD
